import Mathlib

/-!
  Verification development for the Smart Event Manager
  (src/event-system.cpp, class `EventManager`).

  The C++ `std::string` values are modelled as `List Char`; C++ `int` is
  modelled as `Int` (no arithmetic in the program comes near the 32-bit
  boundary except `std::stoi`, whose out-of-range failure is modelled
  explicitly).  Interactive prompts are modelled by passing the strings the
  user would type as arguments; printed status messages become explicit
  outcome values.  Every function keeps the name it has in the source.
-/

namespace EventSys

/-- C++ `std::string`, modelled as a list of characters. -/
abbrev Str := List Char

instance exceptDecEq {ε α : Type} [DecidableEq ε] [DecidableEq α] :
    DecidableEq (Except ε α) := fun x y =>
  match x, y with
  | .ok a, .ok b =>
    if h : a = b then .isTrue (by rw [h]) else .isFalse (by simp [h])
  | .error a, .error b =>
    if h : a = b then .isTrue (by rw [h]) else .isFalse (by simp [h])
  | .ok _, .error _ => .isFalse (by simp)
  | .error _, .ok _ => .isFalse (by simp)

/-- `toLower` (free function in the source): `std::tolower` on an unsigned
char in the default locale lowers exactly the ASCII letters, which is what
`Char.toLower` does. -/
def toLowerStr (s : Str) : Str := s.map Char.toLower

/-- `iequals` (free function in the source): case-insensitive equality. -/
def iequals (a b : Str) : Bool := toLowerStr a == toLowerStr b

/-- `EventManager::isLeap`. -/
def isLeap (y : Nat) : Bool := (y % 4 == 0 && y % 100 != 0) || y % 400 == 0

/-- Numeric value of a digit character (the `c - '0'` idiom; callers
establish `c.isDigit` first, so `Nat` subtraction is exact). -/
def digitVal (c : Char) : Nat := c.toNat - 48

/-- The `mdays` array of `EventManager::isValidDate`. -/
def mdaysArr : List Nat := [0, 31, 28, 31, 30, 31, 30, 31, 31, 30, 31, 30, 31]

/-- Days in a month as `isValidDate` computes them: the `mdays` entry, with
February promoted to 29 in leap years. -/
def daysInMonth (mon yr : Nat) : Nat :=
  if mon == 2 && isLeap yr then 29 else mdaysArr.getD mon 0

/-- `EventManager::isValidDate`: size 10, dashes at positions 2 and 5,
digits everywhere else, then `stoi` of the three fields and the range
checks.  The ten-element pattern match is the size check plus the indexed
accesses of the source. -/
def isValidDate : Str → Bool
  | [d0, d1, s1, m0, m1, s2, y0, y1, y2, y3] =>
    s1 == '-' && s2 == '-' &&
    (d0.isDigit && d1.isDigit && m0.isDigit && m1.isDigit &&
     y0.isDigit && y1.isDigit && y2.isDigit && y3.isDigit) &&
    (let day := 10 * digitVal d0 + digitVal d1
     let mon := 10 * digitVal m0 + digitVal m1
     let yr := 1000 * digitVal y0 + 100 * digitVal y1 + 10 * digitVal y2 + digitVal y3
     1900 ≤ yr && yr ≤ 3000 && 1 ≤ mon && mon ≤ 12 && 1 ≤ day && day ≤ daysInMonth mon yr)
  | _ => false

/-- `EventManager::isValidTime`: size 5, colon at position 2, four digit
positions, hour at most 23 and minute at most 59 (the `h < 0` / `m < 0`
checks of the source cannot fire once the digit checks passed, and digit
values are nonnegative here by construction). -/
def isValidTime : Str → Bool
  | [h0, h1, c, m0, m1] =>
    c == ':' && (h0.isDigit && h1.isDigit && m0.isDigit && m1.isDigit) &&
    (let h := 10 * digitVal h0 + digitVal h1
     let m := 10 * digitVal m0 + digitVal m1
     h ≤ 23 && m ≤ 59)
  | _ => false

/-- The signed value `c - '0'` of C++ `char` arithmetic. -/
def charVal (c : Char) : Int := (c.toNat : Int) - 48

/-- `t[i]` as the source uses it inside `toMinutes`; reading past the end of
the string is undefined behaviour in C++, the total model returns the value
an in-range read of `'0'` would give (no reachable caller hits this case,
see `toMinutesSafe` for the bounds-checked model). -/
def charAt (t : Str) (i : Nat) : Char := t.getD i '0'

/-- `EventManager::toMinutes`:
`(t[0]-'0')*600 + (t[1]-'0')*60 + (t[3]-'0')*10 + (t[4]-'0')`. -/
def toMinutes (t : Str) : Int :=
  600 * charVal (charAt t 0) + 60 * charVal (charAt t 1) +
    10 * charVal (charAt t 3) + charVal (charAt t 4)

/-- Bounds-checked model of `toMinutes`: `none` when any of the four
character reads would be out of range. -/
def toMinutesSafe (t : Str) : Option Int :=
  match t.get? 0, t.get? 1, t.get? 3, t.get? 4 with
  | some a, some b, some c, some d =>
    some (600 * charVal a + 60 * charVal b + 10 * charVal c + charVal d)
  | _, _, _, _ => none

/-- A digit character from a value below 10. -/
def digitChar (n : Nat) : Char := Char.ofNat (48 + n)

/-- Two-digit zero-padded rendering (`setw(2) << setfill('0')`; both fields
`fromMinutes` prints are below 60, so the width is always exactly two). -/
def twoDigits (n : Int) : Str := [digitChar (n / 10).toNat, digitChar (n % 10).toNat]

/-- `EventManager::fromMinutes`: clamp negatives to 0, reduce modulo 1440,
render `HH:MM`. -/
def fromMinutes (minutes : Int) : Str :=
  let m0 := if minutes < 0 then 0 else minutes
  let m1 := m0 % 1440
  twoDigits (m1 / 60) ++ ':' :: twoDigits (m1 % 60)

/-- `struct Event`.  `id{}` zero-initialises, hence `default`. -/
structure Event where
  id : Int
  name : Str
  date : Str
  time : Str
  type : Str
  location : Str
deriving DecidableEq, Repr, Inhabited

/-- `EventManager::conflicts`: same date and overlapping 60-minute
half-open intervals. -/
def conflicts (a b : Event) : Bool :=
  if a.date != b.date then false
  else
    let s1 := toMinutes a.time
    let e1 := s1 + 60
    let s2 := toMinutes b.time
    let e2 := s2 + 60
    s1 < e2 && s2 < e1

/-- The mutable fields of `EventManager` that the claims touch: the `events`
vector and the `nextId` counter (the attendee-email list is owned by the
reminder feature only and no operation modelled here reads or writes it). -/
structure State where
  events : List Event
  nextId : Int
deriving DecidableEq, Repr, Inhabited

/-- The freshly constructed manager: no events, `nextId = 1`. -/
def initState : State := ⟨[], 1⟩

/-- `EventManager::isDuplicate`. -/
def isDuplicate (evs : List Event) (name date time : Str) : Bool :=
  evs.any fun e => iequals e.name name && e.date == date && e.time == time

/-- The observable outcome of `addEvent`: which status message the source
prints, and the reported id on success / the first conflicting id on a
conflict. -/
inductive AddOutcome where
  | added (id : Int)
  | invalidDate
  | invalidTime
  | duplicate
  | conflictWith (id : Int)
deriving DecidableEq, Repr

/-- `EventManager::addEvent`.  Note the source constructs
`Event e{nextId++, ...}` before the conflict scan, so the id counter is
already incremented when a conflict aborts the insertion. -/
def addEvent (st : State) (name date time ty loc : Str) : AddOutcome × State :=
  if !isValidDate date then (.invalidDate, st)
  else if !isValidTime time then (.invalidTime, st)
  else if isDuplicate st.events name date time then (.duplicate, st)
  else
    let e : Event := ⟨st.nextId, name, date, time, ty, loc⟩
    let st1 : State := ⟨st.events, st.nextId + 1⟩
    match st.events.find? (fun ex => conflicts e ex) with
    | some ex => (.conflictWith ex.id, st1)
    | none => (.added e.id, ⟨st.events ++ [e], st.nextId + 1⟩)

/-- The `if (!in.empty()) field = in;` merge of `editEventById`: a blank
input keeps the current value. -/
def mergeField (cur inp : Str) : Str := if inp.isEmpty then cur else inp

/-- `std::find_if` over the events vector, returning the prefix before the
first event with the given id, that event, and the suffix after it. -/
def splitAtId : List Event → Int → Option (List Event × Event × List Event)
  | [], _ => none
  | x :: xs, i =>
    if x.id == i then some ([], x, xs)
    else
      match splitAtId xs i with
      | none => none
      | some (l1, e, l2) => some (x :: l1, e, l2)

/-- `EventManager::editEventById`.  The five `Str` arguments are the lines
the user types at the five prompts (blank keeps the field).  The source
mutates the found event in place, validates against the whole vector
(skipping entries with the edited id), and assigns the backup struct back on
failure; here the mutated vector is `l1 ++ e :: l2` and the reverted one is
`l1 ++ e0 :: l2`. -/
def editEventById (st : State) (id : Int) (nm dt tm ty lc : Str) : Bool × State :=
  match splitAtId st.events id with
  | none => (false, st)
  | some (l1, e0, l2) =>
    let e : Event := ⟨e0.id, mergeField e0.name nm, mergeField e0.date dt,
      mergeField e0.time tm, mergeField e0.type ty, mergeField e0.location lc⟩
    let evs := l1 ++ e :: l2
    if !isValidDate e.date || !isValidTime e.time then
      (false, ⟨l1 ++ e0 :: l2, st.nextId⟩)
    else if evs.any (fun ex =>
        ex.id != e.id && iequals ex.name e.name && ex.date == e.date && ex.time == e.time) then
      (false, ⟨l1 ++ e0 :: l2, st.nextId⟩)
    else if evs.any (fun ex => ex.id != e.id && conflicts e ex) then
      (false, ⟨l1 ++ e0 :: l2, st.nextId⟩)
    else (true, ⟨evs, st.nextId⟩)

/-- `EventManager::deleteById`: `remove_if` keeps exactly the events whose
id differs; the flag reports whether the size changed. -/
def deleteById (st : State) (id : Int) : Bool × State :=
  let rest := st.events.filter fun e => !(e.id == id)
  (rest.length != st.events.length, ⟨rest, st.nextId⟩)

/-- `EventManager::deleteByName` (case-insensitive). -/
def deleteByName (st : State) (name : Str) : Bool × State :=
  let rest := st.events.filter fun e => !iequals e.name name
  (rest.length != st.events.length, ⟨rest, st.nextId⟩)

/-- One step of an insertion sort parametrised by a boolean "may come
before" test; `std::sort` guarantees only some ordering of the vector that
is sorted with respect to the comparator, and this deterministic sort is
the representative used for it. -/
def insertOrd (le : α → α → Bool) (x : α) : List α → List α
  | [] => [x]
  | y :: ys => if le x y then x :: y :: ys else y :: insertOrd le x ys

/-- Insertion sort (the model of `std::sort`). -/
def isort (le : α → α → Bool) : List α → List α
  | [] => []
  | x :: xs => insertOrd le x (isort le xs)

/-- The `ymd` lambda of `listAll`:
`d.substr(6,4) + d.substr(3,2) + d.substr(0,2)`. -/
def ymd (d : Str) : Str := (d.drop 6).take 4 ++ ((d.drop 3).take 2 ++ d.take 2)

/-- Lexicographic `operator<` of `std::string`, by character value. -/
def strLt : Str → Str → Bool
  | _, [] => false
  | [], _ :: _ => true
  | a :: as, b :: bs => a.toNat < b.toNat || (a == b && strLt as bs)

/-- The comparator `listAll` passes to `std::sort`. -/
def evLt (a b : Event) : Bool :=
  if a.date == b.date then toMinutes a.time < toMinutes b.time
  else strLt (ymd a.date) (ymd b.date)

/-- `EventManager::listAll`, as the sequence of events it prints:
a copy of the vector sorted by the `ymd`/time comparator. -/
def listAll (st : State) : List Event :=
  isort (fun a b => !evLt b a) st.events

/-- Lexicographic `operator<` of `std::pair<int,int>`. -/
def pairLe (a b : Int × Int) : Bool :=
  a.1 < b.1 || (a.1 == b.1 && a.2 ≤ b.2)

/-- The candidate scan of `suggestSlots`: `t` runs from the window start in
steps of 30 while `t + duration <= end` and fewer than 5 slots were
accepted; a candidate clashes when some occupied interval overlaps
`[t, t+duration)`. -/
def slotLoop (occ : List (Int × Int)) (dur : Int) (t : Int) (shown : Nat) : List Int :=
  if h : t + dur ≤ 1200 ∧ shown < 5 then
    if occ.any (fun iv => !(t + dur ≤ iv.1 || t ≥ iv.2)) then
      slotLoop occ dur (t + 30) shown
    else
      t :: slotLoop occ dur (t + 30) (shown + 1)
  else []
termination_by (1201 - dur - t).toNat
decreasing_by
  all_goals omega

/-- `EventManager::suggestSlots`, as the list of accepted start minutes
(each printed line is `fromMinutes t` to `fromMinutes (t+duration)`).
Occupied intervals are the date's events as `[start, start+60)`, sorted as
in the source (the clash test quantifies over all of them, so the order is
observationally irrelevant). -/
def suggestSlots (st : State) (date : Str) (dur : Int) : List Int :=
  let occ := st.events.filterMap fun e =>
    if e.date == date then some (toMinutes e.time, toMinutes e.time + 60) else none
  slotLoop (isort pairLe occ) dur 480 0

/-- Whitespace as `std::stoi` (via `strtol`) skips it. -/
def isSpaceChar (c : Char) : Bool :=
  c == ' ' || c == '\t' || c == '\n' || c == '\x0b' || c == '\x0c' || c == '\r'

/-- Digit-string value. -/
def natOfDigits (s : Str) : Nat := s.foldl (fun n c => 10 * n + (c.toNat - 48)) 0

/-- `std::stoi` in base 10: skip whitespace, optional sign, a nonempty run
of digits (trailing junk ignored); `none` models the thrown
`invalid_argument` (no digits) or `out_of_range` (outside `int`). -/
def stoiOpt (s : Str) : Option Int :=
  let s1 := s.dropWhile isSpaceChar
  let signed : Int × Str :=
    match s1 with
    | '-' :: r => (-1, r)
    | '+' :: r => (1, r)
    | r => (1, r)
  let digits := signed.2.takeWhile Char.isDigit
  if digits.isEmpty then none
  else
    let v : Int := signed.1 * (natOfDigits digits : Int)
    if v < -2147483648 || 2147483647 < v then none else some v

/-- Splitting a line at commas exactly as repeated
`std::getline(ss, tok, ',')` does: a token per delimiter, the tail after
the last delimiter only if it is nonempty (the final `getline` fails when
it extracts no characters at all). -/
def csvGo (cur : Str) : Str → List Str
  | [] => if cur.isEmpty then [] else [cur.reverse]
  | c :: rest => if c == ',' then cur.reverse :: csvGo [] rest else csvGo (c :: cur) rest

def csvFields (l : Str) : List Str := csvGo [] l

/-- The `switch(col)` body of `importSnapshotCSV`; only column 0 can fail
(`std::stoi` on a nonempty non-numeric id token throws). -/
def applyCol (e : Event) (col : Nat) (tok : Str) : Except Unit Event :=
  match col with
  | 0 => if tok.isEmpty then .ok e
         else
           match stoiOpt tok with
           | none => .error ()
           | some v => .ok { e with id := v }
  | 1 => .ok { e with name := tok }
  | 2 => .ok { e with date := tok }
  | 3 => .ok { e with time := tok }
  | 4 => .ok { e with type := tok }
  | 5 => .ok { e with location := tok }
  | _ + 6 => .ok e

/-- The column loop of `importSnapshotCSV`. -/
def assignCols (e : Event) (col : Nat) : List Str → Except Unit Event
  | [] => .ok e
  | tok :: rest =>
    match applyCol e col tok with
    | .error () => .error ()
    | .ok e1 => assignCols e1 (col + 1) rest

/-- Parsing one CSV row into an `Event` (all fields start zero/empty). -/
def parseRow (line : Str) : Except Unit Event :=
  assignCols default 0 (csvFields line)

/-- Boolean prefix test on character lists. -/
def isPrefixOfB : Str → Str → Bool
  | [], _ => true
  | _ :: _, [] => false
  | a :: as, b :: bs => a == b && isPrefixOfB as bs

/-- Boolean infix test on character lists (`std::string::find != npos`). -/
def isInfixOfB : Str → Str → Bool
  | pat, [] => pat.isEmpty
  | pat, s =>
    match s with
    | [] => pat.isEmpty
    | _ :: rest => isPrefixOfB pat s || isInfixOfB pat rest

/-- The header string recognised by `importSnapshotCSV`. -/
def headerStr : Str :=
  ['i', 'd', ',', 'n', 'a', 'm', 'e', ',', 'd', 'a', 't', 'e', ',',
   't', 'i', 'm', 'e', ',', 't', 'y', 'p', 'e', ',',
   'l', 'o', 'c', 'a', 't', 'i', 'o', 'n']

/-- The line loop of `importSnapshotCSV`: stop at a blank line, skip lines
without a comma, skip a recognised header while `first` is still set, parse
the rest, keep the rows that pass the id/name/date/time screen, track the
maximal id. -/
def importAux : List Str → Bool → List Event → Int → Except Unit (List Event × Int)
  | [], _, temp, maxId => .ok (temp, maxId)
  | line :: rest, first, temp, maxId =>
    if line.isEmpty then .ok (temp, maxId)
    else if !line.contains ',' then importAux rest first temp maxId
    else if first && isInfixOfB headerStr (toLowerStr line) then
      importAux rest false temp maxId
    else
      match parseRow line with
      | .error () => .error ()
      | .ok e =>
        if e.id == 0 || e.name.isEmpty || !isValidDate e.date || !isValidTime e.time then
          importAux rest false temp maxId
        else importAux rest false (temp ++ [e]) (max maxId e.id)

/-- `EventManager::importSnapshotCSV` on the pasted lines: an empty harvest
leaves the store untouched ("Nothing imported"), otherwise the vector is
wholesale-replaced and `nextId` becomes one past the maximal imported id.
`.error` models the uncaught `std::stoi` exception. -/
def importSnapshotCSV (lines : List Str) (st : State) : Except Unit (Bool × State) :=
  match importAux lines true [] 0 with
  | .error () => .error ()
  | .ok (temp, maxId) =>
    if temp.isEmpty then .ok (false, st)
    else .ok (true, ⟨temp, maxId + 1⟩)

/-- Decides whether the line loop reaches its end without `std::stoi`
throwing: mirrors the control flow of `importAux` and checks only the id
token of each line that actually gets parsed. -/
def importNoThrow : List Str → Bool → Bool
  | [], _ => true
  | line :: rest, first =>
    if line.isEmpty then true
    else if !line.contains ',' then importNoThrow rest first
    else if first && isInfixOfB headerStr (toLowerStr line) then
      importNoThrow rest false
    else
      (match csvFields line with
       | [] => true
       | tok :: _ => tok.isEmpty || (stoiOpt tok).isSome) &&
      importNoThrow rest false

/-- The event a CSV line parses to, with the `std::stoi` failure case
mapped to the zero-initialised event (callers only use this on lines whose
id token parses, where it coincides with `parseRow`). -/
def parsedRow (line : Str) : Event :=
  match parseRow line with
  | .ok e => e
  | .error () => default

/-- The valid rows of a pasted input, in input order: the rows the claim
says a successful import must commit — stop at the first blank line, drop
lines without a comma, drop a recognised header while it would still be
the first parsed line, and drop every parsed row whose id is zero, whose
name is empty, or whose date or time fails validation.  This is the
specification-side yardstick the import theorem compares the committed
store against. -/
def specImportRows : List Str → Bool → List Event
  | [], _ => []
  | line :: rest, first =>
    if line.isEmpty then []
    else if !line.contains ',' then specImportRows rest first
    else if first && isInfixOfB headerStr (toLowerStr line) then
      specImportRows rest false
    else
      let e := parsedRow line
      if e.id == 0 || e.name.isEmpty || !isValidDate e.date || !isValidTime e.time then
        specImportRows rest false
      else e :: specImportRows rest false

/-- The mutating operations a caller can perform through the menu, short of
the CSV import (`Step` is the transition relation of the store). -/
inductive Step : State → State → Prop
  | add (st : State) (name date time ty loc : Str) :
      Step st (addEvent st name date time ty loc).2
  | edit (st : State) (id : Int) (nm dt tm ty lc : Str) :
      Step st (editEventById st id nm dt tm ty lc).2
  | delId (st : State) (id : Int) : Step st (deleteById st id).2
  | delName (st : State) (name : Str) : Step st (deleteByName st name).2

/-- Store states reachable from a fresh manager by add/edit/delete. -/
inductive Reachable : State → Prop
  | init : Reachable initState
  | step {st st' : State} : Reachable st → Step st st' → Reachable st'

/-- Two events form a duplicate pair: same name case-insensitively, same
date, same time (the test `isDuplicate` and the edit-time duplicate check
both apply pairwise). -/
def dupTriple (a b : Event) : Bool :=
  iequals a.name b.name && a.date == b.date && a.time == b.time

/-- The store invariant maintained by add, edit and delete: a positive id
counter; ids positive, below the counter, and pairwise distinct; all dates
and times valid; no duplicate pair; no conflicting pair. -/
def GoodState (st : State) : Prop :=
  0 < st.nextId ∧
  (∀ e ∈ st.events, 0 < e.id ∧ e.id < st.nextId) ∧
  st.events.Pairwise (fun a b => a.id ≠ b.id) ∧
  (∀ e ∈ st.events, isValidDate e.date = true ∧ isValidTime e.time = true) ∧
  st.events.Pairwise (fun a b => dupTriple a b = false) ∧
  st.events.Pairwise (fun a b => conflicts a b = false)

/- Spec-side definitions (used only to state the refinement claim about
`isValidDate`; they follow the wording of the specification, not the
source). -/

/-- Spec wording: a leap year is "divisible by 4, and not by 100 unless
also by 400". -/
def specLeapYear (y : Nat) : Prop := (y % 4 = 0 ∧ y % 100 ≠ 0) ∨ y % 400 = 0

instance (y : Nat) : Decidable (specLeapYear y) := by
  unfold specLeapYear
  infer_instance

/-- Spec-side standard month lengths (month 1 = January). -/
def specMonthDays : Nat → Nat
  | 1 => 31
  | 2 => 28
  | 3 => 31
  | 4 => 30
  | 5 => 31
  | 6 => 30
  | 7 => 31
  | 8 => 31
  | 9 => 30
  | 10 => 31
  | 11 => 30
  | 12 => 31
  | _ => 0

/-- Spec-side days-in-month: February has 29 days iff the year is a leap
year, all other months their standard length. -/
def specDaysInMonth (m y : Nat) : Nat :=
  if m = 2 ∧ specLeapYear y then 29 else specMonthDays m

/-- Spec-side statement of `isValidDate` acceptance: the string decomposes
into exactly three all-digit fields of widths 2, 2 and 4 in day-month-year
order with fixed dash separators, and the three values satisfy the year,
month and day-of-month range rules. -/
def specValidDate (d : Str) : Prop :=
  ∃ ds ms ys : Str,
    d = ds ++ '-' :: (ms ++ '-' :: ys) ∧
    ds.length = 2 ∧ ms.length = 2 ∧ ys.length = 4 ∧
    (∀ c ∈ ds, c.isDigit = true) ∧
    (∀ c ∈ ms, c.isDigit = true) ∧
    (∀ c ∈ ys, c.isDigit = true) ∧
    1900 ≤ natOfDigits ys ∧ natOfDigits ys ≤ 3000 ∧
    1 ≤ natOfDigits ms ∧ natOfDigits ms ≤ 12 ∧
    1 ≤ natOfDigits ds ∧
    natOfDigits ds ≤ specDaysInMonth (natOfDigits ms) (natOfDigits ys)

/- Concrete fixtures used by counterexamples and witnesses. -/

/-- The date string DD-MM-YYYY for 01-01-2030. -/
def dJan1 : Str := ['0', '1', '-', '0', '1', '-', '2', '0', '3', '0']

/-- The date string for 02-01-2030. -/
def dJan2 : Str := ['0', '2', '-', '0', '1', '-', '2', '0', '3', '0']

/-- The time string 09:00. -/
def t0900 : Str := ['0', '9', ':', '0', '0']

/-- The time string 09:30. -/
def t0930 : Str := ['0', '9', ':', '3', '0']

/-- The time string 10:00. -/
def t1000 : Str := ['1', '0', ':', '0', '0']

/-- A structurally invalid date string. -/
def badDate : Str := ['9', '9', '-', '9', '9', '-', '9', '9', '9', '9']

/-- A one-event store: event 1 named "A" on 01-01-2030 at 09:00. -/
def stOne : State := ⟨[⟨1, ['A'], dJan1, t0900, ['T'], ['L']⟩], 2⟩

/-- CSV row `1,A,01-01-2030,09:00,T,L`. -/
def rowId1 : Str :=
  ['1', ','] ++ ['A', ','] ++ dJan1 ++ [','] ++ t0900 ++ [','] ++ ['T', ',', 'L']

/-- CSV row `2,A,01-01-2030,09:00,T,L`: same name, date and time as
`rowId1` but a different id. -/
def rowId2 : Str :=
  ['2', ','] ++ ['A', ','] ++ dJan1 ++ [','] ++ t0900 ++ [','] ++ ['T', ',', 'L']

/-- CSV row `3,B,02-01-2030,09:00,T,L`. -/
def rowId3 : Str :=
  ['3', ','] ++ ['B', ','] ++ dJan2 ++ [','] ++ t0900 ++ [','] ++ ['T', ',', 'L']

/-- CSV row `3,C,02-01-2030,10:00,T,L`: the same id as `rowId3`. -/
def rowId3C : Str :=
  ['3', ','] ++ ['C', ','] ++ dJan2 ++ [','] ++ t1000 ++ [','] ++ ['T', ',', 'L']

/-- CSV row `x,A,01-01-2030,09:00,T,L`: a non-numeric id field. -/
def rowBadId : Str :=
  ['x', ','] ++ ['A', ','] ++ dJan1 ++ [','] ++ t0900 ++ [','] ++ ['T', ',', 'L']

/-- CSV row `-5,A,01-01-2030,09:00,T,L`: a negative id. -/
def rowNegId : Str :=
  ['-', '5', ','] ++ ['A', ','] ++ dJan1 ++ [','] ++ t0900 ++ [','] ++ ['T', ',', 'L']

end EventSys

namespace EventSys

/- A few concrete sanity checks of the embedding (kept as `example`s so they
name no claim). -/

example : isValidDate ['2', '9', '-', '0', '2', '-', '2', '0', '2', '4'] = true := by decide
example : isValidDate ['2', '9', '-', '0', '2', '-', '2', '0', '2', '3'] = false := by decide
example : isValidDate ['3', '1', '-', '0', '4', '-', '2', '0', '2', '4'] = false := by decide
example : isValidDate ['0', '1', '-', '0', '1', '-', '1', '8', '9', '9'] = false := by decide
example : isValidTime ['0', '9', ':', '3', '0'] = true := by decide
example : isValidTime ['2', '4', ':', '0', '0'] = false := by decide
example : toMinutes ['0', '9', ':', '3', '0'] = 570 := by decide
example : fromMinutes 570 = ['0', '9', ':', '3', '0'] := by decide
example : fromMinutes (-5) = ['0', '0', ':', '0', '0'] := by decide

end EventSys

namespace EventSys

/- ------------------------------------------------------------------ -/
/- Helper lemmas                                                       -/
/- ------------------------------------------------------------------ -/

theorem splitAtId_eq {l : List Event} {i : Int} {l1 : List Event} {e : Event}
    {l2 : List Event} (h : splitAtId l i = some (l1, e, l2)) :
    l = l1 ++ e :: l2 ∧ e.id = i ∧ ∀ x ∈ l1, x.id ≠ i := by
  induction l generalizing l1 e l2 with
  | nil => simp [splitAtId] at h
  | cons x xs ih =>
    simp only [splitAtId, beq_iff_eq] at h
    by_cases hx : x.id = i
    · rw [if_pos hx] at h
      simp only [Option.some.injEq, Prod.mk.injEq] at h
      obtain ⟨h1, h2, h3⟩ := h
      subst h1
      subst h2
      subst h3
      exact ⟨rfl, hx, by simp⟩
    · rw [if_neg hx] at h
      cases hrec : splitAtId xs i with
      | none => rw [hrec] at h; exact absurd h (by simp)
      | some r =>
        obtain ⟨m1, e1, m2⟩ := r
        rw [hrec] at h
        simp only [Option.some.injEq, Prod.mk.injEq] at h
        obtain ⟨h1, h2, h3⟩ := h
        subst h2
        subst h3
        subst h1
        obtain ⟨hev, hid, hpre⟩ := ih hrec
        refine ⟨by simp [hev], hid, ?_⟩
        intro y hy
        rcases List.mem_cons.mp hy with hy | hy
        · subst hy; exact hx
        · exact hpre y hy

theorem isDigit_toNat_bounds {c : Char} (h : c.isDigit = true) :
    48 ≤ c.toNat ∧ c.toNat ≤ 57 := by
  simp [Char.isDigit, Char.le_def] at h
  exact h

theorem digitChar_digitVal {c : Char} (h : c.isDigit = true) :
    digitChar (digitVal c) = c := by
  obtain ⟨h1, _⟩ := isDigit_toNat_bounds h
  unfold digitChar digitVal
  have heq : 48 + (c.toNat - 48) = c.toNat := by omega
  rw [heq]
  exact Char.ofNat_toNat c

theorem charVal_eq_digitVal {c : Char} (h : c.isDigit = true) :
    charVal c = (digitVal c : Int) := by
  obtain ⟨h1, _⟩ := isDigit_toNat_bounds h
  unfold charVal digitVal
  omega

/-- Every string accepted by `isValidTime` is `[c0, c1, ':', c3, c4]` with
four digits whose hour and minute values are in range. -/
theorem validTime_shape {t : Str} (h : isValidTime t = true) :
    ∃ c0 c1 c3 c4 : Char, t = [c0, c1, ':', c3, c4] ∧
      c0.isDigit = true ∧ c1.isDigit = true ∧ c3.isDigit = true ∧ c4.isDigit = true ∧
      10 * digitVal c0 + digitVal c1 ≤ 23 ∧ 10 * digitVal c3 + digitVal c4 ≤ 59 := by
  rcases t with - | ⟨c0, t⟩
  · simp [isValidTime] at h
  rcases t with - | ⟨c1, t⟩
  · simp [isValidTime] at h
  rcases t with - | ⟨c2, t⟩
  · simp [isValidTime] at h
  rcases t with - | ⟨c3, t⟩
  · simp [isValidTime] at h
  rcases t with - | ⟨c4, t⟩
  · simp [isValidTime] at h
  rcases t with - | ⟨c5, t⟩
  · simp only [isValidTime, Bool.and_eq_true, beq_iff_eq, decide_eq_true_eq] at h
    obtain ⟨⟨hc, hdig⟩, hh, hm⟩ := h
    obtain ⟨⟨⟨h0, h1⟩, h3⟩, h4⟩ := hdig
    subst hc
    exact ⟨c0, c1, c3, c4, rfl, h0, h1, h3, h4, hh, hm⟩
  · simp [isValidTime] at h

/- ------------------------------------------------------------------ -/
/- Claims                                                              -/
/- ------------------------------------------------------------------ -/

/-- C1 (amended): `addEvent` applies its checks in the priority order
date, time, duplicate, conflict; a date, time or duplicate rejection
returns the store unchanged, while a conflict rejection leaves the event
collection unchanged but has already incremented the `nextId` counter (the
source constructs `Event e{nextId++, ...}` before scanning for conflicts);
a conflict is reported with the id of the first conflicting event. -/
theorem C1_addEvent_priority_and_mutation (st : State) (name date time ty loc : Str) :
    (isValidDate date = false →
      addEvent st name date time ty loc = (.invalidDate, st)) ∧
    (isValidDate date = true → isValidTime time = false →
      addEvent st name date time ty loc = (.invalidTime, st)) ∧
    (isValidDate date = true → isValidTime time = true →
      isDuplicate st.events name date time = true →
      addEvent st name date time ty loc = (.duplicate, st)) ∧
    (isValidDate date = true → isValidTime time = true →
      isDuplicate st.events name date time = false →
      ∀ ex : Event,
        st.events.find? (fun x => conflicts ⟨st.nextId, name, date, time, ty, loc⟩ x) =
          some ex →
        addEvent st name date time ty loc =
          (.conflictWith ex.id, ⟨st.events, st.nextId + 1⟩)) ∧
    (isValidDate date = true → isValidTime time = true →
      isDuplicate st.events name date time = false →
      st.events.find? (fun x => conflicts ⟨st.nextId, name, date, time, ty, loc⟩ x) =
        none →
      addEvent st name date time ty loc =
        (.added st.nextId,
         ⟨st.events ++ [⟨st.nextId, name, date, time, ty, loc⟩], st.nextId + 1⟩)) := by
  refine ⟨?_, ?_, ?_, ?_, ?_⟩
  · intro h; simp [addEvent, h]
  · intro h1 h2; simp [addEvent, h1, h2]
  · intro h1 h2 h3; simp [addEvent, h1, h2, h3]
  · intro h1 h2 h3 ex hex; simp [addEvent, h1, h2, h3, hex]
  · intro h1 h2 h3 hnone; simp [addEvent, h1, h2, h3, hnone]

/-- C1 witness: at a one-event store, an invalid date is rejected with the
store untouched, and a conflicting candidate is rejected with the event
collection untouched but the id counter bumped from 2 to 3. -/
theorem C1_addEvent_priority_and_mutation_witness :
    addEvent stOne ['B'] badDate t0930 ['T'] ['L'] = (.invalidDate, stOne) ∧
    addEvent stOne ['B'] dJan1 t0930 ['T'] ['L'] =
      (.conflictWith 1, ⟨stOne.events, 3⟩) := by
  constructor
  · exact (C1_addEvent_priority_and_mutation stOne ['B'] badDate t0930 ['T'] ['L']).1
      (by decide)
  · exact (C1_addEvent_priority_and_mutation stOne ['B'] dJan1 t0930 ['T'] ['L']).2.2.2.1
      (by decide) (by decide) (by decide) ⟨1, ['A'], dJan1, t0900, ['T'], ['L']⟩ (by decide)

/-- C1 counterexample: adding an event whose 60-minute window overlaps a
live event on the same date is rejected, but the store is *not* left
unchanged — `nextId` has been incremented from 2 to 3. -/
theorem C1_counterexample :
    (addEvent stOne ['B'] dJan1 t0930 ['T'] ['L']).1 = .conflictWith 1 ∧
    (addEvent stOne ['B'] dJan1 t0930 ['T'] ['L']).2 ≠ stOne := by
  decide

/-- C3: an edit of an existing event that fails any of its checks returns
the store equal, componentwise, to the pre-edit store (the source restores
the event from its backup snapshot and touches nothing else). -/
theorem C3_edit_failure_reverts (st : State) (id : Int) (nm dt tm ty lc : Str)
    (_hmem : ∃ e ∈ st.events, e.id = id)
    (hfail : (editEventById st id nm dt tm ty lc).1 = false) :
    (editEventById st id nm dt tm ty lc).2 = st := by
  cases hsplit : splitAtId st.events id with
  | none => simp [editEventById, hsplit]
  | some r =>
    obtain ⟨l1, e0, l2⟩ := r
    obtain ⟨hev, -, -⟩ := splitAtId_eq hsplit
    have hst : (⟨l1 ++ e0 :: l2, st.nextId⟩ : State) = st := by
      rw [← hev]
    simp only [editEventById, hsplit] at hfail ⊢
    split_ifs at hfail ⊢ <;> exact hst

/-- C3 witness: editing event 1 of the one-event store with an invalid
date fails and returns the store unchanged. -/
theorem C3_edit_failure_reverts_witness :
    (editEventById stOne 1 [] badDate [] [] []).2 = stOne :=
  C3_edit_failure_reverts stOne 1 [] badDate [] [] []
    ⟨⟨1, ['A'], dJan1, t0900, ['T'], ['L']⟩, by decide, by decide⟩ (by decide)

/-- C4: from an empty store, adding events at 09:00 and 10:00 on
01-01-2030 succeeds (ids 1 and 2); `suggestSlots` for that date with the
default 60-minute duration then yields exactly the start minutes
08:00, 10:30, 11:00, 11:30, 12:00 — never 08:30 (510) or 09:00 (540),
offering 10:30–11:30 (660) onward at 30-minute steps, at most 5 results. -/
theorem C4_suggestSlots_scenario :
    (addEvent initState ['K'] dJan1 t0900 ['T'] ['L']).1 = .added 1 ∧
    (addEvent (addEvent initState ['K'] dJan1 t0900 ['T'] ['L']).2
       ['S'] dJan1 t1000 ['T'] ['L']).1 = .added 2 ∧
    suggestSlots (addEvent (addEvent initState ['K'] dJan1 t0900 ['T'] ['L']).2
       ['S'] dJan1 t1000 ['T'] ['L']).2 dJan1 60 = [480, 660, 690, 720, 750] ∧
    (510 : Int) ∉ suggestSlots (addEvent (addEvent initState ['K'] dJan1 t0900 ['T'] ['L']).2
       ['S'] dJan1 t1000 ['T'] ['L']).2 dJan1 60 ∧
    (540 : Int) ∉ suggestSlots (addEvent (addEvent initState ['K'] dJan1 t0900 ['T'] ['L']).2
       ['S'] dJan1 t1000 ['T'] ['L']).2 dJan1 60 ∧
    (suggestSlots (addEvent (addEvent initState ['K'] dJan1 t0900 ['T'] ['L']).2
       ['S'] dJan1 t1000 ['T'] ['L']).2 dJan1 60).length ≤ 5 := by
  have hocc : isort pairLe
      ((addEvent (addEvent initState ['K'] dJan1 t0900 ['T'] ['L']).2
         ['S'] dJan1 t1000 ['T'] ['L']).2.events.filterMap fun e =>
        if e.date == dJan1 then some (toMinutes e.time, toMinutes e.time + 60) else none) =
      [(540, 600), (600, 660)] := by decide
  have hloop : slotLoop [(540, 600), (600, 660)] 60 480 0 = [480, 660, 690, 720, 750] := by
    simp [slotLoop]
  have hslots : suggestSlots (addEvent (addEvent initState ['K'] dJan1 t0900 ['T'] ['L']).2
      ['S'] dJan1 t1000 ['T'] ['L']).2 dJan1 60 = [480, 660, 690, 720, 750] := by
    rw [suggestSlots]
    rw [hocc]
    exact hloop
  refine ⟨by decide, by decide, hslots, ?_, ?_, ?_⟩ <;> rw [hslots] <;> decide

end EventSys

namespace EventSys

/-- C8: for every time string accepted by `isValidTime`, converting to
minutes-since-midnight and back is the identity:
`fromMinutes (toMinutes t) = t`. -/
theorem C8_time_roundtrip (t : Str) (h : isValidTime t = true) :
    fromMinutes (toMinutes t) = t := by
  obtain ⟨c0, c1, c3, c4, rfl, hd0, hd1, hd3, hd4, hh, hm⟩ := validTime_shape h
  have e0 := charVal_eq_digitVal hd0
  have e1 := charVal_eq_digitVal hd1
  have e3 := charVal_eq_digitVal hd3
  have e4 := charVal_eq_digitVal hd4
  have hdb0 : digitVal c0 ≤ 9 := by
    obtain ⟨l, r⟩ := isDigit_toNat_bounds hd0; simp only [digitVal]; omega
  have hdb1 : digitVal c1 ≤ 9 := by
    obtain ⟨l, r⟩ := isDigit_toNat_bounds hd1; simp only [digitVal]; omega
  have hdb3 : digitVal c3 ≤ 9 := by
    obtain ⟨l, r⟩ := isDigit_toNat_bounds hd3; simp only [digitVal]; omega
  have hdb4 : digitVal c4 ≤ 9 := by
    obtain ⟨l, r⟩ := isDigit_toNat_bounds hd4; simp only [digitVal]; omega
  have hv : toMinutes [c0, c1, ':', c3, c4] =
      ((600 * digitVal c0 + 60 * digitVal c1 + 10 * digitVal c3 + digitVal c4 : Nat) : Int) := by
    show 600 * charVal c0 + 60 * charVal c1 + 10 * charVal c3 + charVal c4 = _
    rw [e0, e1, e3, e4]
    push_cast
    ring
  rw [hv]
  simp only [fromMinutes]
  rw [if_neg (by omega)]
  rw [show ((600 * digitVal c0 + 60 * digitVal c1 + 10 * digitVal c3 + digitVal c4 : Nat) : Int)
      % 1440 = ((600 * digitVal c0 + 60 * digitVal c1 + 10 * digitVal c3 + digitVal c4 : Nat) : Int)
    from by omega]
  rw [show ((600 * digitVal c0 + 60 * digitVal c1 + 10 * digitVal c3 + digitVal c4 : Nat) : Int)
      / 60 = ((10 * digitVal c0 + digitVal c1 : Nat) : Int) from by push_cast; omega]
  rw [show ((600 * digitVal c0 + 60 * digitVal c1 + 10 * digitVal c3 + digitVal c4 : Nat) : Int)
      % 60 = ((10 * digitVal c3 + digitVal c4 : Nat) : Int) from by push_cast; omega]
  simp only [twoDigits]
  rw [show (((10 * digitVal c0 + digitVal c1 : Nat) : Int) / 10).toNat = digitVal c0 from by omega]
  rw [show (((10 * digitVal c0 + digitVal c1 : Nat) : Int) % 10).toNat = digitVal c1 from by omega]
  rw [show (((10 * digitVal c3 + digitVal c4 : Nat) : Int) / 10).toNat = digitVal c3 from by omega]
  rw [show (((10 * digitVal c3 + digitVal c4 : Nat) : Int) % 10).toNat = digitVal c4 from by omega]
  rw [digitChar_digitVal hd0, digitChar_digitVal hd1,
    digitChar_digitVal hd3, digitChar_digitVal hd4]
  rfl

/-- C8 witness: the round trip at the concrete valid time 09:30. -/
theorem C8_time_roundtrip_witness :
    fromMinutes (toMinutes t0930) = t0930 :=
  C8_time_roundtrip t0930 (by decide)

/-- C10: on every string accepted by `isValidTime`, `toMinutes` reads only
in-bounds positions (the bounds-checked model succeeds, agreeing with the
total model) and its value lies in [0, 1439]; on too-short input the
bounds-checked model fails (the empty string being a witness), since the
source indexes `t[0]`, `t[1]`, `t[3]`, `t[4]` with no length check of its
own. -/
theorem C10_toMinutes_inbounds :
    (∀ t : Str, isValidTime t = true →
      toMinutesSafe t = some (toMinutes t) ∧
      0 ≤ toMinutes t ∧ toMinutes t ≤ 1439) ∧
    toMinutesSafe [] = none := by
  constructor
  · intro t h
    obtain ⟨c0, c1, c3, c4, rfl, hd0, hd1, hd3, hd4, hh, hm⟩ := validTime_shape h
    have e0 := charVal_eq_digitVal hd0
    have e1 := charVal_eq_digitVal hd1
    have e3 := charVal_eq_digitVal hd3
    have e4 := charVal_eq_digitVal hd4
    have hdb1 : digitVal c1 ≤ 9 := by
      obtain ⟨l, r⟩ := isDigit_toNat_bounds hd1; simp only [digitVal]; omega
    have hdb4 : digitVal c4 ≤ 9 := by
      obtain ⟨l, r⟩ := isDigit_toNat_bounds hd4; simp only [digitVal]; omega
    have htm : toMinutes [c0, c1, ':', c3, c4] =
        600 * charVal c0 + 60 * charVal c1 + 10 * charVal c3 + charVal c4 := rfl
    refine ⟨rfl, ?_, ?_⟩
    · rw [htm, e0, e1, e3, e4]; omega
    · rw [htm, e0, e1, e3, e4]; omega
  · rfl

/-- C10 witness: the bounds-checked conversion succeeds on 09:30 with the
value of the total model, inside [0, 1439]. -/
theorem C10_toMinutes_inbounds_witness :
    toMinutesSafe t0930 = some (toMinutes t0930) ∧
    0 ≤ toMinutes t0930 ∧ toMinutes t0930 ≤ 1439 :=
  C10_toMinutes_inbounds.1 t0930 (by decide)

end EventSys

namespace EventSys

theorem isLeap_iff (y : Nat) : isLeap y = true ↔ specLeapYear y := by
  simp [isLeap, specLeapYear, Bool.or_eq_true, Bool.and_eq_true, beq_iff_eq, bne_iff_ne]

theorem daysInMonth_eq_spec {m : Nat} (y : Nat) (h1 : 1 ≤ m) (h2 : m ≤ 12) :
    daysInMonth m y = specDaysInMonth m y := by
  have hcond : (m == 2 && isLeap y) = true ↔ (m = 2 ∧ specLeapYear y) := by
    simp [Bool.and_eq_true, beq_iff_eq, isLeap_iff]
  unfold daysInMonth specDaysInMonth
  by_cases hc : m = 2 ∧ specLeapYear y
  · rw [if_pos (hcond.mpr hc), if_pos hc]
  · rw [if_neg (fun hb => hc (hcond.mp hb)), if_neg hc]
    interval_cases m <;> rfl

theorem natOfDigits_two (a b : Char) :
    natOfDigits [a, b] = 10 * digitVal a + digitVal b := by
  simp [natOfDigits, digitVal, List.foldl]

theorem natOfDigits_four (a b c d : Char) :
    natOfDigits [a, b, c, d] =
      1000 * digitVal a + 100 * digitVal b + 10 * digitVal c + digitVal d := by
  simp [natOfDigits, digitVal, List.foldl]
  omega

/-- Every string accepted by `isValidDate` is ten characters
`[d0, d1, '-', m0, m1, '-', y0, y1, y2, y3]` with eight digits whose day,
month and year values are in range. -/
theorem validDate_shape {d : Str} (h : isValidDate d = true) :
    ∃ d0 d1 m0 m1 y0 y1 y2 y3 : Char,
      d = [d0, d1, '-', m0, m1, '-', y0, y1, y2, y3] ∧
      d0.isDigit = true ∧ d1.isDigit = true ∧ m0.isDigit = true ∧ m1.isDigit = true ∧
      y0.isDigit = true ∧ y1.isDigit = true ∧ y2.isDigit = true ∧ y3.isDigit = true ∧
      1900 ≤ 1000 * digitVal y0 + 100 * digitVal y1 + 10 * digitVal y2 + digitVal y3 ∧
      1000 * digitVal y0 + 100 * digitVal y1 + 10 * digitVal y2 + digitVal y3 ≤ 3000 ∧
      1 ≤ 10 * digitVal m0 + digitVal m1 ∧ 10 * digitVal m0 + digitVal m1 ≤ 12 ∧
      1 ≤ 10 * digitVal d0 + digitVal d1 ∧
      10 * digitVal d0 + digitVal d1 ≤
        daysInMonth (10 * digitVal m0 + digitVal m1)
          (1000 * digitVal y0 + 100 * digitVal y1 + 10 * digitVal y2 + digitVal y3) := by
  rcases d with - | ⟨c0, d⟩
  · simp [isValidDate] at h
  rcases d with - | ⟨c1, d⟩
  · simp [isValidDate] at h
  rcases d with - | ⟨c2, d⟩
  · simp [isValidDate] at h
  rcases d with - | ⟨c3, d⟩
  · simp [isValidDate] at h
  rcases d with - | ⟨c4, d⟩
  · simp [isValidDate] at h
  rcases d with - | ⟨c5, d⟩
  · simp [isValidDate] at h
  rcases d with - | ⟨c6, d⟩
  · simp [isValidDate] at h
  rcases d with - | ⟨c7, d⟩
  · simp [isValidDate] at h
  rcases d with - | ⟨c8, d⟩
  · simp [isValidDate] at h
  rcases d with - | ⟨c9, d⟩
  · simp [isValidDate] at h
  rcases d with - | ⟨c10, d⟩
  · simp only [isValidDate, Bool.and_eq_true, beq_iff_eq, decide_eq_true_eq] at h
    obtain ⟨⟨⟨hs1, hs2⟩, hdig⟩, hr⟩ := h
    obtain ⟨⟨⟨⟨⟨⟨⟨h0, h1⟩, h2⟩, h3⟩, h4⟩, h5⟩, h6⟩, h7⟩ := hdig
    obtain ⟨⟨⟨⟨⟨hy1, hy2⟩, hm1⟩, hm2⟩, hd1⟩, hd2⟩ := hr
    subst hs1
    subst hs2
    exact ⟨c0, c1, c3, c4, c6, c7, c8, c9, rfl, h0, h1, h2, h3, h4, h5, h6, h7,
      hy1, hy2, hm1, hm2, hd1, hd2⟩
  · simp [isValidDate] at h

/-- C5: `isValidDate` accepts a string exactly when it satisfies the
spec-side predicate: three all-digit fields DD-MM-YYYY with dash
separators, year in [1900, 3000], month in [1, 12] and day in
[1, days-in-month] with the leap-year rule for February; and the model is
a total function, so no input raises. -/
theorem C5_isValidDate_spec (d : Str) : isValidDate d = true ↔ specValidDate d := by
  constructor
  · intro h
    obtain ⟨d0, d1, m0, m1, y0, y1, y2, y3, rfl, h0, h1, h2, h3, h4, h5, h6, h7,
      hy1, hy2, hm1, hm2, hd1, hd2⟩ := validDate_shape h
    refine ⟨[d0, d1], [m0, m1], [y0, y1, y2, y3], rfl, rfl, rfl, rfl, ?_, ?_, ?_,
      ?_, ?_, ?_, ?_, ?_, ?_⟩
    · intro c hc
      simp only [List.mem_cons, List.not_mem_nil, or_false] at hc
      rcases hc with rfl | rfl
      exacts [h0, h1]
    · intro c hc
      simp only [List.mem_cons, List.not_mem_nil, or_false] at hc
      rcases hc with rfl | rfl
      exacts [h2, h3]
    · intro c hc
      simp only [List.mem_cons, List.not_mem_nil, or_false] at hc
      rcases hc with rfl | rfl | rfl | rfl
      exacts [h4, h5, h6, h7]
    · rw [natOfDigits_four]; exact hy1
    · rw [natOfDigits_four]; exact hy2
    · rw [natOfDigits_two]; exact hm1
    · rw [natOfDigits_two]; exact hm2
    · rw [natOfDigits_two]; exact hd1
    · rw [natOfDigits_two, natOfDigits_two, natOfDigits_four,
        ← daysInMonth_eq_spec _ hm1 hm2]
      exact hd2
  · rintro ⟨ds, ms, ys, hdeq, hlds, hlms, hlys, hdds, hdms, hdys,
      hy1, hy2, hm1, hm2, hd1, hd2⟩
    rcases ds with - | ⟨a0, ds⟩
    · simp at hlds
    rcases ds with - | ⟨a1, ds⟩
    · simp at hlds
    rcases ds with - | ⟨a2, ds⟩
    swap
    · simp at hlds
    rcases ms with - | ⟨b0, ms⟩
    · simp at hlms
    rcases ms with - | ⟨b1, ms⟩
    · simp at hlms
    rcases ms with - | ⟨b2, ms⟩
    swap
    · simp at hlms
    rcases ys with - | ⟨e0, ys⟩
    · simp at hlys
    rcases ys with - | ⟨e1, ys⟩
    · simp at hlys
    rcases ys with - | ⟨e2, ys⟩
    · simp at hlys
    rcases ys with - | ⟨e3, ys⟩
    · simp at hlys
    rcases ys with - | ⟨e4, ys⟩
    swap
    · simp at hlys
    subst hdeq
    rw [natOfDigits_two] at hd1 hm1 hm2
    rw [natOfDigits_two] at hd2
    rw [natOfDigits_four] at hy1 hy2 hd2
    rw [natOfDigits_two, ← daysInMonth_eq_spec _ hm1 hm2] at hd2
    show isValidDate [a0, a1, '-', b0, b1, '-', e0, e1, e2, e3] = true
    simp only [isValidDate, Bool.and_eq_true, beq_iff_eq, decide_eq_true_eq]
    refine ⟨⟨⟨trivial, trivial⟩, ?_⟩, ?_⟩
    · exact ⟨⟨⟨⟨⟨⟨⟨hdds a0 (by simp), hdds a1 (by simp)⟩, hdms b0 (by simp)⟩,
        hdms b1 (by simp)⟩, hdys e0 (by simp)⟩, hdys e1 (by simp)⟩,
        hdys e2 (by simp)⟩, hdys e3 (by simp)⟩
    · exact ⟨⟨⟨⟨⟨hy1, hy2⟩, hm1⟩, hm2⟩, hd1⟩, hd2⟩

end EventSys

namespace EventSys

theorem assignCols_ok (toks : List Str) (e : Event) (col : Nat) (hcol : 1 ≤ col) :
    ∃ e2, assignCols e col toks = .ok e2 := by
  induction toks generalizing e col with
  | nil => exact ⟨e, rfl⟩
  | cons tok rest ih =>
    have happ : ∃ e1, applyCol e col tok = .ok e1 := by
      rcases col with - | col
      · omega
      rcases col with - | col
      · exact ⟨{ e with name := tok }, rfl⟩
      rcases col with - | col
      · exact ⟨{ e with date := tok }, rfl⟩
      rcases col with - | col
      · exact ⟨{ e with time := tok }, rfl⟩
      rcases col with - | col
      · exact ⟨{ e with type := tok }, rfl⟩
      rcases col with - | col
      · exact ⟨{ e with location := tok }, rfl⟩
      · exact ⟨e, rfl⟩
    obtain ⟨e1, he1⟩ := happ
    have hstep : assignCols e col (tok :: rest) = assignCols e1 (col + 1) rest := by
      rw [assignCols, he1]
    rw [hstep]
    exact ih e1 (col + 1) (by omega)

theorem parseRow_ok {line : Str}
    (h : (match csvFields line with
          | [] => true
          | tok :: _ => tok.isEmpty || (stoiOpt tok).isSome) = true) :
    ∃ e, parseRow line = .ok e := by
  unfold parseRow
  cases hcf : csvFields line with
  | nil => exact ⟨default, rfl⟩
  | cons tok rest =>
    rw [hcf] at h
    simp only [Bool.or_eq_true] at h
    have happ : ∃ e1, applyCol default 0 tok = .ok e1 := by
      simp only [applyCol]
      rcases h with h | h
      · exact ⟨default, by simp [h]⟩
      · obtain ⟨v, hv⟩ := Option.isSome_iff_exists.mp h
        cases htok : tok.isEmpty
        · exact ⟨{ (default : Event) with id := v }, by simp [hv]⟩
        · exact ⟨default, by simp⟩
    obtain ⟨e1, he1⟩ := happ
    have hstep : assignCols default 0 (tok :: rest) = assignCols e1 1 rest := by
      rw [assignCols, he1]
    rw [hstep]
    exact assignCols_ok rest e1 1 (by omega)

theorem specImportRows_screen (lines : List Str) (first : Bool) :
    ∀ e ∈ specImportRows lines first, e.id ≠ 0 ∧ e.name.isEmpty = false ∧
      isValidDate e.date = true ∧ isValidTime e.time = true := by
  induction lines generalizing first with
  | nil => simp [specImportRows]
  | cons line rest ih =>
    intro e he
    cases hemp : line.isEmpty with
    | true =>
      rw [specImportRows] at he
      simp only [hemp] at he
      simp at he
    | false =>
      cases hcomma : line.contains ',' with
      | false =>
        have hred : specImportRows (line :: rest) first = specImportRows rest first := by
          rw [specImportRows]
          simp only [hemp, hcomma]
          simp
        rw [hred] at he
        exact ih first e he
      | true =>
        cases hdr : first && isInfixOfB headerStr (toLowerStr line) with
        | true =>
          have hred : specImportRows (line :: rest) first = specImportRows rest false := by
            rw [specImportRows]
            simp only [hemp, hcomma, hdr]
            simp
          rw [hred] at he
          exact ih false e he
        | false =>
          cases hskip : (parsedRow line).id == 0 || (parsedRow line).name.isEmpty ||
              !isValidDate (parsedRow line).date || !isValidTime (parsedRow line).time with
          | true =>
            have hred : specImportRows (line :: rest) first = specImportRows rest false := by
              rw [specImportRows]
              simp only [hemp, hcomma, hdr, hskip]
              simp
            rw [hred] at he
            exact ih false e he
          | false =>
            have hred : specImportRows (line :: rest) first =
                parsedRow line :: specImportRows rest false := by
              rw [specImportRows]
              simp only [hemp, hcomma, hdr, hskip]
              simp
            rw [hred] at he
            rcases List.mem_cons.mp he with rfl | he
            · refine ⟨?_, ?_, ?_, ?_⟩
              · intro hq
                simp [hq] at hskip
              · cases hne : (parsedRow line).name.isEmpty with
                | false => rfl
                | true => simp [hne] at hskip
              · cases hvd : isValidDate (parsedRow line).date with
                | true => rfl
                | false => simp [hvd] at hskip
              · cases hvt : isValidTime (parsedRow line).time with
                | true => rfl
                | false => simp [hvt] at hskip
            · exact ih false e he

theorem importAux_ok (lines : List Str) (first : Bool) (temp : List Event)
    (maxId : Int) (h : importNoThrow lines first = true) :
    importAux lines first temp maxId =
      .ok (temp ++ specImportRows lines first,
           (specImportRows lines first).foldl (fun m e => max m e.id) maxId) := by
  induction lines generalizing first temp maxId with
  | nil => simp [importAux, specImportRows]
  | cons line rest ih =>
    cases he : line.isEmpty with
    | true =>
      rw [importAux, specImportRows]
      simp [he]
    | false =>
      cases hcomma : line.contains ',' with
      | false =>
        have h2 : importNoThrow rest first = true := by
          rw [importNoThrow] at h
          simp only [he, hcomma] at h
          simpa using h
        have hspec : specImportRows (line :: rest) first = specImportRows rest first := by
          rw [specImportRows]
          simp only [he, hcomma]
          simp
        rw [hspec, importAux]
        simp only [he, hcomma]
        simpa using ih first temp maxId h2
      | true =>
        cases hdr : first && isInfixOfB headerStr (toLowerStr line) with
        | true =>
          have h2 : importNoThrow rest false = true := by
            rw [importNoThrow] at h
            simp only [he, hcomma, hdr] at h
            simpa using h
          have hspec : specImportRows (line :: rest) first = specImportRows rest false := by
            rw [specImportRows]
            simp only [he, hcomma, hdr]
            simp
          rw [hspec, importAux]
          simp only [he, hcomma, hdr]
          simpa using ih false temp maxId h2
        | false =>
          cases htok : (match csvFields line with
              | [] => true
              | tok :: _ => tok.isEmpty || (stoiOpt tok).isSome) with
          | false =>
            rw [importNoThrow] at h
            simp only [he, hcomma, hdr, htok] at h
            simp at h
          | true =>
            have hrest : importNoThrow rest false = true := by
              rw [importNoThrow] at h
              simp only [he, hcomma, hdr, htok] at h
              simpa using h
            obtain ⟨e, hpe⟩ := parseRow_ok htok
            have hpr : parsedRow line = e := by
              rw [parsedRow, hpe]
            cases hskip : (e.id == 0 || e.name.isEmpty || !isValidDate e.date ||
                !isValidTime e.time) with
            | true =>
              have hspec : specImportRows (line :: rest) first =
                  specImportRows rest false := by
                rw [specImportRows]
                simp only [he, hcomma, hdr, hpr, hskip]
                simp
              rw [hspec, importAux]
              simp only [he, hcomma, hdr, hpe, hskip]
              simpa using ih false temp maxId hrest
            | false =>
              have hspec : specImportRows (line :: rest) first =
                  e :: specImportRows rest false := by
                rw [specImportRows]
                simp only [he, hcomma, hdr, hpr, hskip]
                simp
              rw [hspec, importAux]
              simp only [he, hcomma, hdr, hpe, hskip]
              have hih := ih false (temp ++ [e]) (max maxId e.id) hrest
              rw [List.foldl_cons]
              simpa using hih

end EventSys

namespace EventSys

/-- C6 (amended): provided `std::stoi` does not throw — that is, every
line that reaches the row parser has an id field that is empty or a
numeric literal in `int` range, which `importNoThrow` decides — import
skips a recognised header line, skips lines without a comma, skips rows
failing the id/name/date/time screen, and terminates normally; if at least
one valid row remains the store is wholesale-replaced by exactly the valid
rows of the input, in input order (`specImportRows`, the spec-side
characterisation of the valid rows — all of which satisfy the screen),
with the id counter set to one greater than the maximal imported id as the
source computes it (a running max with floor 0), and with zero valid rows
the store is untouched and "nothing imported" is reported.  The original claim's "never fails fatally
on any row" is false: a row with a nonempty non-numeric id field makes
`std::stoi` throw an uncaught exception (see the counterexample). -/
theorem C6_import_skips_and_replaces (lines : List Str) (st : State)
    (h : importNoThrow lines true = true) :
    (∃ flag st2,
      importSnapshotCSV lines st = .ok (flag, st2) ∧
      (flag = false ↔ specImportRows lines true = []) ∧
      (flag = false → st2 = st) ∧
      (flag = true →
        st2.events = specImportRows lines true ∧
        (∀ e ∈ st2.events, e.id ≠ 0 ∧ e.name.isEmpty = false ∧
          isValidDate e.date = true ∧ isValidTime e.time = true) ∧
        st2.nextId =
          (specImportRows lines true).foldl (fun m e => max m e.id) 0 + 1)) ∧
    (∀ (l : Str) (ls : List Str) (first : Bool) (temp : List Event) (maxId : Int),
      l.isEmpty = false → l.contains ',' = false →
      importAux (l :: ls) first temp maxId = importAux ls first temp maxId) ∧
    (∀ (l : Str) (ls : List Str) (temp : List Event) (maxId : Int),
      l.isEmpty = false → l.contains ',' = true →
      isInfixOfB headerStr (toLowerStr l) = true →
      importAux (l :: ls) true temp maxId = importAux ls false temp maxId) := by
  refine ⟨?_, ?_, ?_⟩
  · have heq := importAux_ok lines true [] 0 h
    rw [List.nil_append] at heq
    cases hrows : specImportRows lines true with
    | nil =>
      rw [hrows] at heq
      refine ⟨false, st, ?_, by simp [hrows], fun _ => rfl, by simp⟩
      rw [importSnapshotCSV, heq]
      rfl
    | cons a t =>
      rw [hrows] at heq
      refine ⟨true, ⟨a :: t, (a :: t).foldl (fun m e => max m e.id) 0 + 1⟩,
        ?_, by simp [hrows], by simp, ?_⟩
      · rw [importSnapshotCSV, heq]
        rfl
      · intro _
        refine ⟨rfl, ?_, rfl⟩
        intro e he
        refine specImportRows_screen lines true e ?_
        rw [hrows]
        exact he
  · intro l ls first temp maxId he hc
    rw [importAux, if_neg (by simp [he]), if_pos (by simpa using hc)]
  · intro l ls temp maxId he hc hh
    rw [importAux, if_neg (by simp [he]), if_neg (by simpa using hc),
      if_pos (by simp [hh])]

/-- C6 witness: importing the single row `1,A,01-01-2030,09:00,T,L` into a
fresh store succeeds, replaces the store with that row and sets the id
counter to 2. -/
theorem C6_import_skips_and_replaces_witness :
    (∃ flag st2,
      importSnapshotCSV [rowId1] initState = .ok (flag, st2) ∧
      (flag = false ↔ specImportRows [rowId1] true = []) ∧
      (flag = false → st2 = initState) ∧
      (flag = true →
        st2.events = specImportRows [rowId1] true ∧
        (∀ e ∈ st2.events, e.id ≠ 0 ∧ e.name.isEmpty = false ∧
          isValidDate e.date = true ∧ isValidTime e.time = true) ∧
        st2.nextId =
          (specImportRows [rowId1] true).foldl (fun m e => max m e.id) 0 + 1)) ∧
    (∀ (l : Str) (ls : List Str) (first : Bool) (temp : List Event) (maxId : Int),
      l.isEmpty = false → l.contains ',' = false →
      importAux (l :: ls) first temp maxId = importAux ls first temp maxId) ∧
    (∀ (l : Str) (ls : List Str) (temp : List Event) (maxId : Int),
      l.isEmpty = false → l.contains ',' = true →
      isInfixOfB headerStr (toLowerStr l) = true →
      importAux (l :: ls) true temp maxId = importAux ls false temp maxId) :=
  C6_import_skips_and_replaces [rowId1] initState (by decide)

/-- C6 counterexample: the claim says import "never fails fatally on any
row", but the row `x,A,01-01-2030,09:00,T,L` — comma-separated, with a
nonempty non-numeric id field — drives `std::stoi` into an uncaught
exception, modelled as `.error`. -/
theorem C6_counterexample :
    importSnapshotCSV [rowBadId] initState = .error () := by decide

/-- C2 counterexample: one import (a sequence containing `import` in the
sense of the claim) reaches a committed state holding two live events with
the same case-insensitive name, the same date and the same time — so both
the duplicate rule and the conflict rule are violated in a reachable
committed state, because `importSnapshotCSV` never checks them. -/
theorem C2_counterexample :
    importSnapshotCSV [rowId1, rowId2] initState =
      .ok (true, ⟨[⟨1, ['A'], dJan1, t0900, ['T'], ['L']⟩,
                   ⟨2, ['A'], dJan1, t0900, ['T'], ['L']⟩], 3⟩) ∧
    iequals (⟨1, ['A'], dJan1, t0900, ['T'], ['L']⟩ : Event).name
      (⟨2, ['A'], dJan1, t0900, ['T'], ['L']⟩ : Event).name = true ∧
    (⟨1, ['A'], dJan1, t0900, ['T'], ['L']⟩ : Event).date =
      (⟨2, ['A'], dJan1, t0900, ['T'], ['L']⟩ : Event).date ∧
    (⟨1, ['A'], dJan1, t0900, ['T'], ['L']⟩ : Event).time =
      (⟨2, ['A'], dJan1, t0900, ['T'], ['L']⟩ : Event).time ∧
    conflicts ⟨1, ['A'], dJan1, t0900, ['T'], ['L']⟩
      ⟨2, ['A'], dJan1, t0900, ['T'], ['L']⟩ = true := by decide

/-- C7 counterexample: import performs no id-uniqueness or positivity
check: one import reaches a committed state with two live events sharing
id 3, and another reaches a committed state whose only event has the
non-positive id -5. -/
theorem C7_counterexample :
    importSnapshotCSV [rowId3, rowId3C] initState =
      .ok (true, ⟨[⟨3, ['B'], dJan2, t0900, ['T'], ['L']⟩,
                   ⟨3, ['C'], dJan2, t1000, ['T'], ['L']⟩], 4⟩) ∧
    importSnapshotCSV [rowNegId] initState =
      .ok (true, ⟨[⟨-5, ['A'], dJan1, t0900, ['T'], ['L']⟩], 1⟩) ∧
    ¬(0 < (-5 : Int)) := by decide

end EventSys

namespace EventSys

theorem conflicts_symm (a b : Event) : conflicts a b = conflicts b a := by
  unfold conflicts
  by_cases h : a.date = b.date
  · simp only [h, bne_self_eq_false, Bool.false_eq_true, if_false]
    rw [Bool.and_comm]
  · have h2 : b.date ≠ a.date := fun hq => h hq.symm
    simp [bne_iff_ne, h, h2]

theorem dupTriple_symm (a b : Event) : dupTriple a b = dupTriple b a := by
  unfold dupTriple iequals
  rw [Bool.eq_iff_iff]
  simp only [Bool.and_eq_true, beq_iff_eq]
  constructor
  · rintro ⟨⟨hn, hd⟩, ht⟩
    exact ⟨⟨hn.symm, hd.symm⟩, ht.symm⟩
  · rintro ⟨⟨hn, hd⟩, ht⟩
    exact ⟨⟨hn.symm, hd.symm⟩, ht.symm⟩

theorem good_initState : GoodState initState := by
  constructor
  · decide
  · refine ⟨?_, ?_, ?_, ?_, ?_⟩ <;> simp [initState]

theorem good_filter (st : State) (h : GoodState st) (p : Event → Bool) :
    GoodState ⟨st.events.filter p, st.nextId⟩ := by
  obtain ⟨h1, h2, h3, h4, h5, h6⟩ := h
  have hsub : List.Sublist (st.events.filter p) st.events := List.filter_sublist _
  refine ⟨h1, ?_, h3.sublist hsub, ?_, h5.sublist hsub, h6.sublist hsub⟩
  · intro e he
    exact h2 e (hsub.mem he)
  · intro e he
    exact h4 e (hsub.mem he)

theorem good_addEvent (st : State) (h : GoodState st) (n d t ty lc : Str) :
    GoodState (addEvent st n d t ty lc).2 := by
  obtain ⟨h1, h2, h3, h4, h5, h6⟩ := h
  have hbump : GoodState ⟨st.events, st.nextId + 1⟩ := by
    refine ⟨show (0 : Int) < st.nextId + 1 from by omega, ?_, h3, h4, h5, h6⟩
    intro e he
    obtain ⟨ha, hb⟩ := h2 e he
    exact ⟨ha, show e.id < st.nextId + 1 from by omega⟩
  unfold addEvent
  cases hd : isValidDate d with
  | false => exact ⟨h1, h2, h3, h4, h5, h6⟩
  | true =>
  cases ht : isValidTime t with
  | false =>
    simp only [Bool.not_true, Bool.false_eq_true, if_false, Bool.not_false, if_true]
    exact ⟨h1, h2, h3, h4, h5, h6⟩
  | true =>
  cases hdup : isDuplicate st.events n d t with
  | true =>
    simp only [Bool.not_true, Bool.false_eq_true, if_false, Bool.not_false, if_true]
    exact ⟨h1, h2, h3, h4, h5, h6⟩
  | false =>
  simp only [Bool.not_true, Bool.false_eq_true, if_false, Bool.not_false, if_true,
    hdup]
  cases hfind : st.events.find? (fun ex => conflicts ⟨st.nextId, n, d, t, ty, lc⟩ ex) with
  | some ex => exact hbump
  | none =>
    have hnoc : ∀ ex ∈ st.events, conflicts ⟨st.nextId, n, d, t, ty, lc⟩ ex = false := by
      intro ex hex
      have := List.find?_eq_none.mp hfind ex hex
      simpa using this
    have hnodup : ∀ ex ∈ st.events, dupTriple ex ⟨st.nextId, n, d, t, ty, lc⟩ = false := by
      intro ex hex
      have hq : (iequals ex.name n && ex.date == d && ex.time == t) = false := by
        cases hqq : (iequals ex.name n && ex.date == d && ex.time == t) with
        | false => rfl
        | true =>
          have hdup2 : isDuplicate st.events n d t = true :=
            List.any_eq_true.mpr ⟨ex, hex, hqq⟩
          rw [hdup2] at hdup
          exact absurd hdup (by simp)
      simpa [dupTriple] using hq
    show GoodState ⟨st.events ++ [⟨st.nextId, n, d, t, ty, lc⟩], st.nextId + 1⟩
    refine ⟨show (0 : Int) < st.nextId + 1 from by omega, ?_, ?_, ?_, ?_, ?_⟩
    · intro e he
      rcases List.mem_append.mp he with he | he
      · obtain ⟨ha, hb⟩ := h2 e he
        exact ⟨ha, show e.id < st.nextId + 1 from by omega⟩
      · rcases List.mem_singleton.mp he with rfl
        exact ⟨show (0 : Int) < st.nextId from h1,
          show st.nextId < st.nextId + 1 from by omega⟩
    · rw [List.pairwise_append]
      refine ⟨h3, by simp, ?_⟩
      intro a ha b hb
      rcases List.mem_singleton.mp hb with rfl
      obtain ⟨-, hlt⟩ := h2 a ha
      simp only []
      omega
    · intro e he
      rcases List.mem_append.mp he with he | he
      · exact h4 e he
      · rcases List.mem_singleton.mp he with rfl
        exact ⟨hd, ht⟩
    · rw [List.pairwise_append]
      refine ⟨h5, by simp, ?_⟩
      intro a ha b hb
      rcases List.mem_singleton.mp hb with rfl
      exact hnodup a ha
    · rw [List.pairwise_append]
      refine ⟨h6, by simp, ?_⟩
      intro a ha b hb
      rcases List.mem_singleton.mp hb with rfl
      rw [conflicts_symm]
      exact hnoc a ha

end EventSys

namespace EventSys

theorem good_edit_core (st : State) (h : GoodState st) (l1 l2 : List Event)
    (e0 e : Event) (hev : st.events = l1 ++ e0 :: l2) (hide : e.id = e0.id)
    (hvd : isValidDate e.date = true) (hvt : isValidTime e.time = true)
    (hdup : ∀ ex ∈ l1 ++ e :: l2, ex.id ≠ e.id → dupTriple ex e = false)
    (hcon : ∀ ex ∈ l1 ++ e :: l2, ex.id ≠ e.id → conflicts e ex = false) :
    GoodState ⟨l1 ++ e :: l2, st.nextId⟩ := by
  obtain ⟨h1, h2, h3, h4, h5, h6⟩ := h
  rw [hev] at h2 h3 h4 h5 h6
  obtain ⟨i1, i2, iacross⟩ := List.pairwise_append.mp h3
  obtain ⟨ie0, il2⟩ := List.pairwise_cons.mp i2
  obtain ⟨d1, d2, dacross⟩ := List.pairwise_append.mp h5
  obtain ⟨de0, dl2⟩ := List.pairwise_cons.mp d2
  obtain ⟨k1, k2, kacross⟩ := List.pairwise_append.mp h6
  obtain ⟨ke0, kl2⟩ := List.pairwise_cons.mp k2
  have he0mem : e0 ∈ l1 ++ e0 :: l2 := by simp
  have hl1id : ∀ x ∈ l1, x.id ≠ e.id := by
    intro x hx
    rw [hide]
    exact iacross x hx e0 (by simp)
  have hl2id : ∀ y ∈ l2, y.id ≠ e.id := by
    intro y hy
    rw [hide]
    exact fun hq => ie0 y hy hq.symm
  have hl1mem : ∀ x ∈ l1, x ∈ l1 ++ e :: l2 := fun x hx => by simp [hx]
  have hl2mem : ∀ y ∈ l2, y ∈ l1 ++ e :: l2 := fun y hy => by simp [hy]
  refine ⟨h1, ?_, ?_, ?_, ?_, ?_⟩
  · intro x hx
    rcases List.mem_append.mp hx with hx | hx
    · exact h2 x (by simp [hx])
    · rcases List.mem_cons.mp hx with rfl | hx
      · rw [hide]
        exact h2 e0 he0mem
      · exact h2 x (by simp [hx])
  · rw [List.pairwise_append, List.pairwise_cons]
    refine ⟨i1, ⟨?_, il2⟩, ?_⟩
    · intro y hy
      exact fun hq => hl2id y hy hq.symm
    · intro a ha b hb
      rcases List.mem_cons.mp hb with rfl | hb
      · exact hl1id a ha
      · exact iacross a ha b (by simp [hb])
  · intro x hx
    rcases List.mem_append.mp hx with hx | hx
    · exact h4 x (by simp [hx])
    · rcases List.mem_cons.mp hx with rfl | hx
      · exact ⟨hvd, hvt⟩
      · exact h4 x (by simp [hx])
  · rw [List.pairwise_append, List.pairwise_cons]
    refine ⟨d1, ⟨?_, dl2⟩, ?_⟩
    · intro y hy
      rw [dupTriple_symm]
      exact hdup y (hl2mem y hy) (hl2id y hy)
    · intro a ha b hb
      rcases List.mem_cons.mp hb with rfl | hb
      · exact hdup a (hl1mem a ha) (hl1id a ha)
      · exact dacross a ha b (by simp [hb])
  · rw [List.pairwise_append, List.pairwise_cons]
    refine ⟨k1, ⟨?_, kl2⟩, ?_⟩
    · intro y hy
      exact hcon y (hl2mem y hy) (hl2id y hy)
    · intro a ha b hb
      rcases List.mem_cons.mp hb with rfl | hb
      · rw [conflicts_symm]
        exact hcon a (hl1mem a ha) (hl1id a ha)
      · exact kacross a ha b (by simp [hb])

end EventSys

namespace EventSys

theorem good_editEventById (st : State) (h : GoodState st) (id : Int)
    (nm dt tm ty lc : Str) :
    GoodState (editEventById st id nm dt tm ty lc).2 := by
  cases hsplit : splitAtId st.events id with
  | none =>
    simp only [editEventById, hsplit]
    exact h
  | some r =>
    obtain ⟨l1, e0, l2⟩ := r
    obtain ⟨hev, hid0, -⟩ := splitAtId_eq hsplit
    have hrevert : (⟨l1 ++ e0 :: l2, st.nextId⟩ : State) = st := by
      rw [← hev]
    simp only [editEventById, hsplit]
    split_ifs with hc1 hc2 hc3
    · rw [show ((false, (⟨l1 ++ e0 :: l2, st.nextId⟩ : State)).2) =
        (⟨l1 ++ e0 :: l2, st.nextId⟩ : State) from rfl, hrevert]
      exact h
    · rw [show ((false, (⟨l1 ++ e0 :: l2, st.nextId⟩ : State)).2) =
        (⟨l1 ++ e0 :: l2, st.nextId⟩ : State) from rfl, hrevert]
      exact h
    · rw [show ((false, (⟨l1 ++ e0 :: l2, st.nextId⟩ : State)).2) =
        (⟨l1 ++ e0 :: l2, st.nextId⟩ : State) from rfl, hrevert]
      exact h
    · rw [Bool.not_eq_true] at hc2 hc3
      simp only [Bool.or_eq_true, Bool.not_eq_true', not_or, Bool.not_eq_false] at hc1
      obtain ⟨hvd, hvt⟩ := hc1
      refine good_edit_core st h l1 l2 e0
        ⟨e0.id, mergeField e0.name nm, mergeField e0.date dt, mergeField e0.time tm,
          mergeField e0.type ty, mergeField e0.location lc⟩
        hev rfl hvd hvt ?_ ?_
      · intro ex hex hxid
        have hfex := List.any_eq_false.mp hc2 ex hex
        rw [show (ex.id !=
            (⟨e0.id, mergeField e0.name nm, mergeField e0.date dt, mergeField e0.time tm,
              mergeField e0.type ty, mergeField e0.location lc⟩ : Event).id) = true from by
          simpa using hxid] at hfex
        simpa [dupTriple] using hfex
      · intro ex hex hxid
        have hfex := List.any_eq_false.mp hc3 ex hex
        rw [show (ex.id !=
            (⟨e0.id, mergeField e0.name nm, mergeField e0.date dt, mergeField e0.time tm,
              mergeField e0.type ty, mergeField e0.location lc⟩ : Event).id) = true from by
          simpa using hxid] at hfex
        simpa using hfex

end EventSys

namespace EventSys

theorem reachable_good {st : State} (h : Reachable st) : GoodState st := by
  induction h with
  | init => exact good_initState
  | step hr hs ih =>
    cases hs with
    | add n d t ty lc => exact good_addEvent _ ih n d t ty lc
    | edit id nm dt tm ty lc => exact good_editEventById _ ih id nm dt tm ty lc
    | delId id => exact good_filter _ ih _
    | delName name => exact good_filter _ ih _

/-- C2 (amended): in every committed store state reachable by add, edit and
delete operations from a fresh store, no two live events share the
case-insensitive (name, date, time) triple and no two live events conflict
(same date with overlapping 60-minute windows).  The original claim also
quantified over import, but `importSnapshotCSV` performs no duplicate or
conflict check, so an import can commit a state violating both rules (see
the counterexample). -/
theorem C2_no_dup_no_conflict (st : State) (h : Reachable st) :
    st.events.Pairwise (fun a b => dupTriple a b = false) ∧
    st.events.Pairwise (fun a b => conflicts a b = false) :=
  ⟨(reachable_good h).2.2.2.2.1, (reachable_good h).2.2.2.2.2⟩

/-- C2 witness: the invariant instantiated at the reachable one-event store
obtained by a single successful add. -/
theorem C2_no_dup_no_conflict_witness :
    (addEvent initState ['K'] dJan1 t0900 ['T'] ['L']).2.events.Pairwise
      (fun a b => dupTriple a b = false) ∧
    (addEvent initState ['K'] dJan1 t0900 ['T'] ['L']).2.events.Pairwise
      (fun a b => conflicts a b = false) :=
  C2_no_dup_no_conflict _
    (Reachable.step Reachable.init (Step.add initState ['K'] dJan1 t0900 ['T'] ['L']))

/-- C7 (amended): in every committed store state reachable by add, edit and
delete operations from a fresh store, every live event's id is positive and
ids are pairwise distinct.  The original claim also quantified over import,
but `importSnapshotCSV` accepts any nonzero `stoi` value, so one import can
commit duplicate ids or a negative id (see the counterexample). -/
theorem C7_ids_positive_unique (st : State) (h : Reachable st) :
    (∀ e ∈ st.events, 0 < e.id) ∧
    st.events.Pairwise (fun a b => a.id ≠ b.id) :=
  ⟨fun e he => ((reachable_good h).2.1 e he).1, (reachable_good h).2.2.1⟩

/-- C7 witness: the id invariant instantiated at the reachable one-event
store obtained by a single successful add. -/
theorem C7_ids_positive_unique_witness :
    (∀ e ∈ (addEvent initState ['K'] dJan1 t0900 ['T'] ['L']).2.events, 0 < e.id) ∧
    (addEvent initState ['K'] dJan1 t0900 ['T'] ['L']).2.events.Pairwise
      (fun a b => a.id ≠ b.id) :=
  C7_ids_positive_unique _
    (Reachable.step Reachable.init (Step.add initState ['K'] dJan1 t0900 ['T'] ['L']))

end EventSys

namespace EventSys

theorem charToNat_inj {a b : Char} (h : a.toNat = b.toNat) : a = b := by
  have ha := Char.ofNat_toNat a
  rw [h, Char.ofNat_toNat b] at ha
  exact ha.symm

theorem strLt_irrefl (s : Str) : strLt s s = false := by
  induction s with
  | nil => rfl
  | cons a as ih => simp [strLt, ih]

theorem strLt_trans {s t u : Str} (h1 : strLt s t = true) (h2 : strLt t u = true) :
    strLt s u = true := by
  induction s generalizing t u with
  | nil =>
    cases u with
    | nil =>
      cases t with
      | nil => exact h2
      | cons b bs => simp [strLt] at h2
    | cons c cs => rfl
  | cons a as ih =>
    cases t with
    | nil => simp [strLt] at h1
    | cons b bs =>
      cases u with
      | nil => simp [strLt] at h2
      | cons c cs =>
        simp only [strLt, Bool.or_eq_true, Bool.and_eq_true, beq_iff_eq,
          decide_eq_true_eq] at h1 h2 ⊢
        rcases h1 with h1 | ⟨rfl, h1⟩
        · rcases h2 with h2 | ⟨rfl, h2⟩
          · exact Or.inl (by omega)
          · exact Or.inl h1
        · rcases h2 with h2 | ⟨rfl, h2⟩
          · exact Or.inl h2
          · exact Or.inr ⟨rfl, ih h1 h2⟩

theorem strLt_connex {s t : Str} (h1 : strLt s t = false) (h2 : strLt t s = false) :
    s = t := by
  induction s generalizing t with
  | nil =>
    cases t with
    | nil => rfl
    | cons b bs => simp [strLt] at h1
  | cons a as ih =>
    cases t with
    | nil => simp [strLt] at h2
    | cons b bs =>
      simp only [strLt, Bool.or_eq_false_iff, Bool.and_eq_false_iff,
        decide_eq_false_iff_not] at h1 h2
      obtain ⟨hlt1, hr1⟩ := h1
      obtain ⟨hlt2, hr2⟩ := h2
      have hab : a = b := charToNat_inj (by omega)
      subst hab
      rcases hr1 with hr1 | hr1
      · simp at hr1
      rcases hr2 with hr2 | hr2
      · simp at hr2
      rw [ih hr1 hr2]

theorem strLt_asymm {s t : Str} (h : strLt s t = true) : strLt t s = false := by
  cases hq : strLt t s with
  | false => rfl
  | true =>
    have := strLt_trans h hq
    rw [strLt_irrefl] at this
    cases this

/-- The `ymd` rearrangement is injective on strings accepted by
`isValidDate` (both have the 10-character dashed shape, and `ymd` keeps all
eight data characters). -/
theorem ymd_inj {a b : Str} (ha : isValidDate a = true) (hb : isValidDate b = true)
    (h : ymd a = ymd b) : a = b := by
  obtain ⟨a0, a1, a2, a3, a4, a5, a6, a7, rfl, -⟩ := validDate_shape ha
  obtain ⟨b0, b1, b2, b3, b4, b5, b6, b7, rfl, -⟩ := validDate_shape hb
  simp only [ymd, List.drop, List.take, List.append_nil, List.cons_append,
    List.nil_append, List.cons.injEq, and_true] at h
  obtain ⟨h4, h5, h6, h7, h2, h3, h0, h1⟩ := h
  subst h0
  subst h1
  subst h2
  subst h3
  subst h4
  subst h5
  subst h6
  subst h7
  rfl

end EventSys

namespace EventSys

theorem mem_insertOrd {α : Type} {le : α → α → Bool} {x a : α} {l : List α} :
    a ∈ insertOrd le x l ↔ a = x ∨ a ∈ l := by
  induction l with
  | nil => simp [insertOrd]
  | cons y ys ih =>
    unfold insertOrd
    by_cases hxy : le x y = true
    · rw [if_pos hxy]
      simp only [List.mem_cons]
    · rw [if_neg hxy]
      simp only [List.mem_cons, ih]
      tauto

theorem perm_insertOrd {α : Type} (le : α → α → Bool) (x : α) (l : List α) :
    (insertOrd le x l).Perm (x :: l) := by
  induction l with
  | nil => exact List.Perm.refl _
  | cons y ys ih =>
    unfold insertOrd
    by_cases hxy : le x y = true
    · simp [hxy]
    · simp only [hxy, if_false]
      exact (ih.cons y).trans (List.Perm.swap x y ys)

theorem perm_isort {α : Type} (le : α → α → Bool) (l : List α) :
    (isort le l).Perm l := by
  induction l with
  | nil => exact List.Perm.refl _
  | cons x xs ih =>
    exact (perm_insertOrd le x (isort le xs)).trans (ih.cons x)

theorem mem_isort {α : Type} {le : α → α → Bool} {a : α} {l : List α} :
    a ∈ isort le l ↔ a ∈ l := (perm_isort le l).mem_iff

theorem pairwise_insertOrd {α : Type} (le : α → α → Bool) (x : α) (l : List α)
    (htot : ∀ a b, le a b = true ∨ le b a = true)
    (htr : ∀ a, (a = x ∨ a ∈ l) → ∀ b, (b = x ∨ b ∈ l) → ∀ c, (c = x ∨ c ∈ l) →
      le a b = true → le b c = true → le a c = true)
    (hl : l.Pairwise fun a b => le a b = true) :
    (insertOrd le x l).Pairwise fun a b => le a b = true := by
  induction l with
  | nil => simp [insertOrd]
  | cons y ys ih =>
    obtain ⟨hy, hys⟩ := List.pairwise_cons.mp hl
    unfold insertOrd
    by_cases hxy : le x y = true
    · rw [if_pos hxy]
      rw [List.pairwise_cons]
      refine ⟨?_, hl⟩
      intro z hz
      rcases List.mem_cons.mp hz with rfl | hz
      · exact hxy
      · exact htr x (Or.inl rfl) y (Or.inr (by simp)) z (Or.inr (by simp [hz]))
          hxy (hy z hz)
    · rw [if_neg hxy]
      have hyx : le y x = true := by
        rcases htot x y with h | h
        · exact absurd h hxy
        · exact h
      rw [List.pairwise_cons]
      refine ⟨?_, ?_⟩
      · intro z hz
        rcases mem_insertOrd.mp hz with rfl | hz
        · exact hyx
        · exact hy z hz
      · refine ih ?_ hys
        intro a ha b hb c hc
        refine htr a ?_ b ?_ c ?_
        · rcases ha with rfl | ha
          · exact Or.inl rfl
          · exact Or.inr (by simp [ha])
        · rcases hb with rfl | hb
          · exact Or.inl rfl
          · exact Or.inr (by simp [hb])
        · rcases hc with rfl | hc
          · exact Or.inl rfl
          · exact Or.inr (by simp [hc])

theorem pairwise_isort {α : Type} (le : α → α → Bool) (l : List α)
    (htot : ∀ a b, le a b = true ∨ le b a = true)
    (htr : ∀ a ∈ l, ∀ b ∈ l, ∀ c ∈ l, le a b = true → le b c = true → le a c = true) :
    (isort le l).Pairwise fun a b => le a b = true := by
  induction l with
  | nil => simp [isort]
  | cons x xs ih =>
    show (insertOrd le x (isort le xs)).Pairwise _
    refine pairwise_insertOrd le x (isort le xs) htot ?_ ?_
    · intro a ha b hb c hc
      refine htr a ?_ b ?_ c ?_
      · rcases ha with rfl | ha
        · simp
        · simp [mem_isort.mp ha]
      · rcases hb with rfl | hb
        · simp
        · simp [mem_isort.mp hb]
      · rcases hc with rfl | hc
        · simp
        · simp [mem_isort.mp hc]
    · refine ih ?_
      intro a ha b hb c hc
      exact htr a (by simp [ha]) b (by simp [hb]) c (by simp [hc])

end EventSys

namespace EventSys

theorem strLt_trichot (s t : Str) : strLt s t = true ∨ strLt t s = true ∨ s = t := by
  cases h1 : strLt s t with
  | true => exact Or.inl rfl
  | false =>
    cases h2 : strLt t s with
    | true => exact Or.inr (Or.inl rfl)
    | false => exact Or.inr (Or.inr (strLt_connex h1 h2))

theorem strLe_trans {s t u : Str} (h1 : strLt t s = false) (h2 : strLt u t = false) :
    strLt u s = false := by
  cases hus : strLt u s with
  | false => rfl
  | true =>
    rcases strLt_trichot s t with hst | hts | rfl
    · have hq := strLt_trans hus hst
      rw [h2] at hq
      cases hq
    · rw [h1] at hts
      cases hts
    · rw [h2] at hus
      cases hus

theorem evLt_dates_eq {x y : Event} (h : x.date = y.date) :
    evLt x y = decide (toMinutes x.time < toMinutes y.time) := by
  unfold evLt
  rw [if_pos (by simp [h])]

theorem evLt_dates_ne {x y : Event} (h : x.date ≠ y.date) :
    evLt x y = strLt (ymd x.date) (ymd y.date) := by
  unfold evLt
  rw [if_neg (by simp [h])]

theorem evLt_asymm (a b : Event) (h : evLt a b = true) : evLt b a = false := by
  by_cases hd : a.date = b.date
  · rw [evLt_dates_eq hd] at h
    rw [evLt_dates_eq hd.symm]
    simp only [decide_eq_true_eq] at h
    simp only [decide_eq_false_iff_not, not_lt]
    omega
  · rw [evLt_dates_ne hd] at h
    rw [evLt_dates_ne (Ne.symm hd)]
    exact strLt_asymm h

theorem evLe_trans {a b c : Event}
    (hva : isValidDate a.date = true) (hvb : isValidDate b.date = true)
    (_hvc : isValidDate c.date = true)
    (h1 : evLt b a = false) (h2 : evLt c b = false) : evLt c a = false := by
  by_cases hba : b.date = a.date <;> by_cases hcb : c.date = b.date
  · have hca : c.date = a.date := hcb.trans hba
    rw [evLt_dates_eq hba] at h1
    rw [evLt_dates_eq hcb] at h2
    rw [evLt_dates_eq hca]
    simp only [decide_eq_false_iff_not, not_lt] at h1 h2 ⊢
    omega
  · have hca : c.date ≠ a.date := fun hq => hcb (hq.trans hba.symm)
    rw [evLt_dates_ne hcb] at h2
    rw [evLt_dates_ne hca]
    rw [show ymd b.date = ymd a.date from by rw [hba]] at h2
    exact h2
  · have hca : c.date ≠ a.date := fun hq => hba (hcb.symm.trans hq)
    rw [evLt_dates_ne hba] at h1
    rw [evLt_dates_ne hca]
    rw [show ymd c.date = ymd b.date from by rw [hcb]]
    exact h1
  · rw [evLt_dates_ne hba] at h1
    rw [evLt_dates_ne hcb] at h2
    by_cases hca : c.date = a.date
    · exfalso
      rw [show ymd c.date = ymd a.date from by rw [hca]] at h2
      exact hba (ymd_inj hvb hva (strLt_connex h1 h2))
    · rw [evLt_dates_ne hca]
      exact strLe_trans h1 h2

/-- C9: for a store state whose events all carry valid dates and times,
`listAll` presents a permutation of the live events that is pairwise
ordered by date ascending — dates compared through the year-month-day
`ymd` rearrangement, not the raw day-month-year string — and by time
ascending within equal dates. -/
theorem C9_listAll_sorted (st : State)
    (hval : ∀ e ∈ st.events, isValidDate e.date = true ∧ isValidTime e.time = true) :
    (listAll st).Perm st.events ∧
    (listAll st).Pairwise (fun a b =>
      (strLt (ymd a.date) (ymd b.date) = true ∨ ymd a.date = ymd b.date) ∧
      (a.date = b.date → toMinutes a.time ≤ toMinutes b.time)) := by
  have hperm : (listAll st).Perm st.events := perm_isort _ _
  refine ⟨hperm, ?_⟩
  have hpl : (listAll st).Pairwise fun a b => (!evLt b a) = true := by
    apply pairwise_isort
    · intro a b
      cases hab : evLt b a with
      | false => exact Or.inl (by simp [hab])
      | true => exact Or.inr (by simp [evLt_asymm b a hab])
    · intro a ha b hb c hc h1 h2
      simp only [Bool.not_eq_true'] at h1 h2 ⊢
      exact evLe_trans (hval a ha).1 (hval b hb).1 (hval c hc).1 h1 h2
  refine List.Pairwise.imp_of_mem ?_ hpl
  intro a b ha hb hle
  have hva := (hval a (hperm.mem_iff.mp ha)).1
  have hvb := (hval b (hperm.mem_iff.mp hb)).1
  rw [Bool.not_eq_true'] at hle
  by_cases hd : a.date = b.date
  · constructor
    · exact Or.inr (by rw [hd])
    · intro _
      rw [evLt_dates_eq hd.symm] at hle
      simp only [decide_eq_false_iff_not, not_lt] at hle
      omega
  · rw [evLt_dates_ne (Ne.symm hd)] at hle
    constructor
    · rcases strLt_trichot (ymd a.date) (ymd b.date) with h | h | h
      · exact Or.inl h
      · rw [hle] at h
        cases h
      · exact Or.inr h
    · intro hq
      exact absurd hq hd

/-- C9 witness: a two-event store listed in `ymd` order (the event dated
02-01-2030 precedes the one dated 01-02-2030, although the raw string
order says otherwise). -/
theorem C9_listAll_sorted_witness :
    (listAll ⟨[⟨1, ['A'], ['0', '1', '-', '0', '2', '-', '2', '0', '3', '0'],
                 t0900, ['T'], ['L']⟩,
               ⟨2, ['B'], dJan2, t0900, ['T'], ['L']⟩], 3⟩).Perm
      [⟨1, ['A'], ['0', '1', '-', '0', '2', '-', '2', '0', '3', '0'],
         t0900, ['T'], ['L']⟩,
       ⟨2, ['B'], dJan2, t0900, ['T'], ['L']⟩] ∧
    (listAll ⟨[⟨1, ['A'], ['0', '1', '-', '0', '2', '-', '2', '0', '3', '0'],
                 t0900, ['T'], ['L']⟩,
               ⟨2, ['B'], dJan2, t0900, ['T'], ['L']⟩], 3⟩).Pairwise (fun a b =>
      (strLt (ymd a.date) (ymd b.date) = true ∨ ymd a.date = ymd b.date) ∧
      (a.date = b.date → toMinutes a.time ≤ toMinutes b.time)) :=
  C9_listAll_sorted
    ⟨[⟨1, ['A'], ['0', '1', '-', '0', '2', '-', '2', '0', '3', '0'],
       t0900, ['T'], ['L']⟩,
      ⟨2, ['B'], dJan2, t0900, ['T'], ['L']⟩], 3⟩ (by decide)

end EventSys
